import Mathlib

/-!
Verification development for the evmscript bytecode preprocessor.

The definitions below are a shallow embedding of the TypeScript sources:
  src/helpers.ts   (byteLength, leftPad, rightPad, ensureFullByte, POINTER_BYTE_LENGTH)
  src/grammar.ts   (Instruction, stack-reference lowering, Padded, ByteRange,
                    JumpMap, ActionPointer, Action)
  src/actions.ts   (push)
  src/index.ts     (ActionProcessor: processActions, processStack,
                    processByteLengths, processJumpDestinations, toHex)

Hex strings are modelled as `List Char`; machine numbers (JS number / BigInt)
as `Nat`.
-/

/-! ## Hex digit rendering: JS `n.toString(16)` -/

/-- One hex digit character, lowercase, as produced by JS `toString(16)`:
0-9 then a-f. -/
def hexCharOfDigit (d : Nat) : Char :=
  if d < 10 then Char.ofNat (48 + d) else Char.ofNat (87 + d)

/-- Big-endian hex digits of `n`, empty for 0.  The first argument is fuel
used only to make the division recursion structural; any fuel at least `n`
computes the same list. -/
def natToHexAux : Nat → Nat → List Char
  | 0, _ => []
  | fuel+1, n =>
    if n = 0 then [] else natToHexAux fuel (n / 16) ++ [hexCharOfDigit (n % 16)]

/-- JS `n.toString(16)` for a non-negative number or BigInt: `"0"` for zero,
otherwise the big-endian base-16 digits with no leading zeros. -/
def natToHexChars (n : Nat) : List Char :=
  if n = 0 then ['0'] else natToHexAux n n

/-- JS `String.prototype.toUpperCase` restricted to single ASCII characters
(all characters we ever emit are ASCII hex digits). -/
def toUpperChar (c : Char) : Char :=
  if 'a' ≤ c ∧ c ≤ 'z' then Char.ofNat (c.toNat - 32) else c

/-! ## src/helpers.ts -/

/-- `POINTER_BYTE_LENGTH` (src/helpers.ts). -/
def POINTER_BYTE_LENGTH : Nat := 2

/-- `byteLength` of a numeric input (src/helpers.ts lines 20-23):
`length = n.toString(16).length; floor(length/2) + length % 2`. -/
def byteLengthNat (n : Nat) : Nat :=
  (natToHexChars n).length / 2 + (natToHexChars n).length % 2

/-- Number of characters the `leftPad` / `rightPad` while-loops of
src/helpers.ts add to a string of length `len` to reach a multiple of
`mult` (for `mult > 0`): the loops add one character at a time until the
length is divisible by `mult`. -/
def padCount (len mult : Nat) : Nat :=
  (mult - len % mult) % mult

/-- `leftPad(bytecode, byteLength)` (src/helpers.ts lines 67-73): prepend
`"0"` until the length is a multiple of `byteLength * 2`. -/
def leftPad (bytecode : List Char) (byteLen : Nat) : List Char :=
  List.replicate (padCount bytecode.length (byteLen * 2)) '0' ++ bytecode

/-- `rightPad(bytecode, byteLength)` (src/helpers.ts lines 75-81): append
`"0"` until the length is a multiple of `byteLength * 2`. -/
def rightPad (bytecode : List Char) (byteLen : Nat) : List Char :=
  bytecode ++ List.replicate (padCount bytecode.length (byteLen * 2)) '0'

/-- `ensureFullByte` (src/helpers.ts lines 83-85). -/
def ensureFullByte (bytecode : List Char) : List Char :=
  leftPad bytecode 1

/-! ## src/grammar.ts: Instruction -/

/-- `Instruction` (src/grammar.ts): opcode byte plus the generic stack
delta (stackRemoved, stackAdded) recorded in the static table. -/
structure Instruction where
  code : Nat
  stackRemoved : Nat
  stackAdded : Nat
deriving DecidableEq, Repr

/-- `Instruction.isSwap` (src/grammar.ts lines 200-202):
SWAP1.code ≤ code ≤ SWAP16.code. -/
def Instruction.isSwap (i : Instruction) : Bool :=
  decide (0x90 ≤ i.code) && decide (i.code ≤ 0x9f)

/-- `Instruction.JUMPDEST = new Instruction(0x5B, 0, 0)`. -/
def Instruction.JUMPDEST : Instruction := ⟨0x5b, 0, 0⟩

/-- `Instruction.STOP = new Instruction(0x00, 0, 0)`. -/
def Instruction.STOP : Instruction := ⟨0x00, 0, 0⟩

/-- The property-lookup `Instruction["DUP" + n]` (src/grammar.ts): DUP1..DUP16
exist, with codes 0x80..0x8F and stack delta (0, 1); any other index is
`undefined`. -/
def dupInstruction (n : Nat) : Option Instruction :=
  if 1 ≤ n ∧ n ≤ 16 then some ⟨0x80 + (n - 1), 0, 1⟩ else none

/-- The property-lookup `Instruction["SWAP" + n]`: SWAP1..SWAP16 exist, with
codes 0x90..0x9F and stack delta (0, 0); any other index is `undefined`. -/
def swapInstruction (n : Nat) : Option Instruction :=
  if 1 ≤ n ∧ n ≤ 16 then some ⟨0x90 + (n - 1), 0, 0⟩ else none

/-- The property-lookup `Instruction["PUSH" + n]`: PUSH1..PUSH32 exist, with
codes 0x60..0x7F and stack delta (0, 1); any other index is `undefined`. -/
def pushInstruction (n : Nat) : Option Instruction :=
  if 1 ≤ n ∧ n ≤ 32 then some ⟨0x60 + (n - 1), 0, 1⟩ else none

/-! ## src/grammar.ts: stack reference lowering (getReplacement) -/

/-- Error message of `DupStackReference.getReplacement`
(src/grammar.ts line 267). -/
def dupTooDeepMessage (actionName : String) : String :=
  "Stack reference from " ++ actionName ++ "() is too deep; cannot use DUP. Please make sure the stack reference is within 16 slots from the top of the stack."

/-- Error message of `SwapStackReference.getReplacement`
(src/grammar.ts line 295). -/
def swapTooDeepMessage (actionName : String) : String :=
  "Stack reference from " ++ actionName ++ "() is too deep; cannot use SWAP. Please make sure the stack reference is within 16 slots from the top of the stack."

/-- `DupStackReference.getReplacement(depth)` (src/grammar.ts lines 261-271):
look up `Instruction["DUP" + (depth + 1)]`, throwing when it is undefined. -/
def dupGetReplacement (actionName : String) (depth : Nat) : Except String Instruction :=
  let dupNumber := depth + 1
  match dupInstruction dupNumber with
  | some instruction => .ok instruction
  | none => .error (dupTooDeepMessage actionName)

/-- `SwapStackReference.getReplacement(depth)` (src/grammar.ts lines 288-298):
look up `Instruction["SWAP" + depth]` (no `+ 1` here), throwing when it is
undefined. -/
def swapGetReplacement (actionName : String) (depth : Nat) : Except String Instruction :=
  match swapInstruction depth with
  | some instruction => .ok instruction
  | none => .error (swapTooDeepMessage actionName)

/-! ## src/index.ts: processStack, one instruction step

The processor simulates the stack as an array of `StackReference` identities
(`stack[0]` is the top).  References carry a global monotonically increasing
id (`StackReference.nextIndex` in src/grammar.ts); we model a reference by
its id and thread the counter through the simulation state. -/

/-- Stack-simulation state: the next fresh `StackReference` id and the
simulated stack of reference ids, index 0 = top. -/
structure SimState where
  counter : Nat
  stack : List Nat
deriving DecidableEq, Repr

/-- The SWAP block of `ActionProcessor.processStack` (src/index.ts
lines 280-284): `top = stack[0]; toSwap = stack[swapIndex];
stack[0] = toSwap; stack[swapIndex] = top`. -/
def exchangeTop (stack : List Nat) (swapIndex : Nat) : List Nat :=
  let top := stack.getD 0 0
  let toSwap := stack.getD swapIndex 0
  (stack.set 0 toSwap).set swapIndex top

/-- The generic stack-delta block of `processStack` (src/index.ts
lines 287-289): shift `removed` entries off the top, then unshift `added`
freshly created references (ids counter, counter+1, ...; the last one
unshifted ends on top). -/
def applyStackDelta (st : SimState) (instruction : Instruction) : SimState :=
  let stack := st.stack.drop instruction.stackRemoved
  ⟨st.counter + instruction.stackAdded,
    ((List.range instruction.stackAdded).map (fun j => st.counter + j)).reverse ++ stack⟩

/-- Error message at src/index.ts line 277. -/
def swapOutOfRangeMessage (swapIndex : Nat) : String :=
  "Cannot execute SWAP" ++ toString swapIndex ++ ": swap index out of range"

/-- Processing of one `Instruction` item by `ActionProcessor.processStack`
(src/index.ts lines 266-290).  `originalIsHotSwap` records whether the
original item (before `getReplacement`) was a `HotSwapStackReference`: in
that case the swap-permutation block is skipped. -/
def processStackInstruction (st : SimState) (instruction : Instruction)
    (originalIsHotSwap : Bool) : Except String SimState :=
  if instruction.isSwap = true ∧ originalIsHotSwap = false then
    let swapIndex := instruction.code - 0x90 + 1
    if st.stack.length ≤ swapIndex then
      .error (swapOutOfRangeMessage swapIndex)
    else
      .ok (applyStackDelta ⟨st.counter, exchangeTop st.stack swapIndex⟩ instruction)
  else
    .ok (applyStackDelta st instruction)

/-! ## src/grammar.ts: Padded -/

/-- The side argument of `Padded` / `$pad`. -/
inductive PadSide where
  | left
  | right
deriving DecidableEq, Repr

/-- `Padded.byteLength` (src/grammar.ts lines 654-656):
`itemLength + (lengthInBytes - (itemLength % lengthInBytes))`, where
`itemLength = byteLength(item)` is captured at construction. -/
def paddedByteLength (itemLength lengthInBytes : Nat) : Nat :=
  itemLength + (lengthInBytes - itemLength % lengthInBytes)

/-- `Padded.toHex` (src/grammar.ts lines 644-652), as a function of the
inner value's emitted hex: `leftPad(bytecode, lengthInBytes)` for side
"left", `rightPad(bytecode, lengthInBytes)` for side "right". -/
def paddedToHex (bytecode : List Char) (lengthInBytes : Nat) (side : PadSide) : List Char :=
  match side with
  | .left => leftPad bytecode lengthInBytes
  | .right => rightPad bytecode lengthInBytes

/-- Modelled from the spec: "rounds its visible byte length up to the next
multiple of `len`", read as ordinary rounding up (the least multiple of
`len` that is ≥ `n`).  Used to compare the code's byte-length formula with
the spec's wording. -/
def specRoundUpToMultiple (n len : Nat) : Nat :=
  len * ((n + len - 1) / len)

/-! ## src/grammar.ts: ByteRange -/

/-- The constructor check of `ByteRange` (src/grammar.ts lines 588-600):
`startPositionInBytes > byteLength(item)` is an error. -/
def byteRangeConstructorCheck (actualByteLength startPositionInBytes : Nat) : Except String Unit :=
  if actualByteLength < startPositionInBytes then
    .error ("ByteRange start position longer than input. Received: " ++ toString startPositionInBytes ++ ", Actual bytes: " ++ toString actualByteLength)
  else
    .ok ()

/-- `ByteRange.toHex` (src/grammar.ts lines 602-608), as a function of the
inner value's emitted hex: `chunk = bytecode.substr(start * 2, len * 2)`
then `rightPad(chunk, len)`. -/
def byteRangeToHex (bytecode : List Char) (startPositionInBytes lengthInBytes : Nat) : List Char :=
  let chunk := (bytecode.drop (startPositionInBytes * 2)).take (lengthInBytes * 2)
  rightPad chunk lengthInBytes

/-- `ByteRange.byteLength` (src/grammar.ts lines 610-612). -/
def byteRangeByteLength (lengthInBytes : Nat) : Nat :=
  lengthInBytes

/-! ## src/grammar.ts: LabelPointer, ActionPointer, JumpMap -/

/-- `LabelPointer.byteLength` and `ActionPointer.byteLength`
(src/grammar.ts lines 517-519 and 537-539). -/
def pointerByteLength : Nat :=
  POINTER_BYTE_LENGTH

/-- `ActionPointer.toHex` (src/grammar.ts lines 530-535):
`leftPad(codeLocations[action.id].toString(16), POINTER_BYTE_LENGTH)`,
as a function of the resolved byte offset. -/
def actionPointerToHex (codeLocation : Nat) : List Char :=
  leftPad (natToHexChars codeLocation) POINTER_BYTE_LENGTH

/-- `JumpMap.byteLength` (src/grammar.ts lines 698-701): the items are one
`LabelPointer` per label (each `POINTER_BYTE_LENGTH` bytes, summed by
`ConcatedHexValue.byteLength`), then `length + (32 - (length % 32))`. -/
def jumpMapByteLength (labels : List String) : Nat :=
  let length := (labels.map (fun _ => POINTER_BYTE_LENGTH)).sum
  length + (32 - length % 32)

/-! ## src/actions.ts: push -/

/-- Items of the flattened intermediate representation that this development
tracks: opcodes, numeric literals (JS number / BigInt after hex-string
sanitization), and action pointers (resolved to 2-byte offsets).  Stack
references are modelled separately by `processStackInstruction`, which is
where the processor replaces them. -/
inductive Item where
  | instr (i : Instruction)
  | lit (n : Nat)
  | actionPtr (actionId : Nat)
deriving DecidableEq, Repr

/-- An argument to `push`: either the result of another action function
(an `Action` / `ActionPointer`) or a numeric literal. -/
inductive PushArg where
  | actionResult
  | lit (n : Nat)
deriving DecidableEq, Repr

/-- Error message of `push` for `Action` inputs (src/actions.ts line 36). -/
def pushActionResultMessage : String :=
  "push() cannot accept the results of other actions. Please check your code to ensure push() only receives preprocessable data."

/-- The failure message produced by `ensure(input).is32BytesOrLess()`
(src/ensure.ts lines 34-48): the matcher fails with this message when
`byteLength(input) > 32`. -/
def is32BytesOrLessMessage : String :=
  "Expected input to be less than or equal to 32 bytes"

/-- The intermediate items `push` appends (src/actions.ts lines 44-47):
`Instruction["PUSH" + byteLength(input)]` followed by the input itself.
The `none` branch is unreachable for numeric literals, whose byte length
is always between 1 and the checked bound. -/
def pushIntermediate (n : Nat) : List Item :=
  match pushInstruction (byteLengthNat n) with
  | some instruction => [Item.instr instruction, Item.lit n]
  | none => [Item.lit n]

/-- `push` (src/actions.ts lines 34-50): reject `Action` inputs, ensure the
value is hexable (always true of numeric literals) and at most 32 bytes,
then emit `PUSH(byteLength(input))` followed by the input. -/
def push (input : PushArg) : Except String (List Item) :=
  match input with
  | .actionResult => .error pushActionResultMessage
  | .lit n =>
    if 32 < byteLengthNat n then .error is32BytesOrLessMessage
    else .ok (pushIntermediate n)

/-! ## src/index.ts: ActionProcessor pipeline

`Action` objects (src/grammar.ts lines 348-489) carry an id, a
jump-destination flag and an `intermediate` list whose entries are either
plain IR items or nested child `Action`s.  The fields not used by the
processor passes below (name, virtual stack, source location, parent link)
are omitted; the processor receives the top-level actions (those without a
parent) already merged with the tail actions. -/

mutual
/-- An `Action` as seen by the `ActionProcessor`. -/
inductive ActionTree where
  | mk (id : Nat) (isJumpDestination : Bool) (intermediate : EntryList)

/-- `Action.intermediate`: a list of IR items and nested actions. -/
inductive EntryList where
  | nil
  | consItem (item : Item) (rest : EntryList)
  | consAction (child : ActionTree) (rest : EntryList)
end

/-- The id of an action. -/
def ActionTree.id : ActionTree → Nat
  | .mk i _ _ => i

/-- The `isJumpDestination` flag of an action. -/
def ActionTree.isJumpDestination : ActionTree → Bool
  | .mk _ b _ => b

/-- The `intermediate` list of an action. -/
def ActionTree.intermediate : ActionTree → EntryList
  | .mk _ _ l => l

/-- `intermediate.length == 0` (src/index.ts line 168). -/
def EntryList.isEmpty : EntryList → Bool
  | .nil => true
  | .consItem _ _ => false
  | .consAction _ _ => false

/-- Record of one entry of `actionStartIndeces` (src/index.ts line 181):
the flattened-instruction index an action starts at, together with the
action's id and jump-destination flag. -/
structure StartEntry where
  index : Nat
  actionId : Nat
  isJD : Bool
deriving DecidableEq, Repr

/-- State built up by `ActionProcessor.processActions` (src/index.ts
lines 164-211): the flattened intermediate representation plus the
start-index and end-index records. -/
structure FlatState where
  intermediate : List Item
  starts : List StartEntry
  ends : List (Nat × Nat)
deriving DecidableEq, Repr

mutual
/-- `processAction` (src/index.ts lines 167-204): error on a non-jump-dest
action with empty `intermediate`; record the start index; prepend a
JUMPDEST when the action is a jump destination; process the entries
(recursing into child actions); record the end index. -/
def processOneAction : ActionTree → FlatState → Except String FlatState
  | .mk actionId isJD inter, st =>
    if isJD = false ∧ inter.isEmpty = true then
      .error "Cannot process action: it contains no instructions."
    else
      let startIndex := st.intermediate.length
      let st1 : FlatState :=
        { st with starts := st.starts ++ [⟨startIndex, actionId, isJD⟩] }
      let st2 : FlatState :=
        if isJD = true then
          { st1 with intermediate := st1.intermediate ++ [Item.instr Instruction.JUMPDEST] }
        else st1
      match processEntries inter st2 with
      | .error e => .error e
      | .ok st3 => .ok { st3 with ends := st3.ends ++ [(st3.intermediate.length - 1, actionId)] }

/-- The `action.intermediate.forEach` loop of `processAction`
(src/index.ts lines 189-195). -/
def processEntries (l : EntryList) (st : FlatState) : Except String FlatState :=
  match l with
  | .nil => .ok st
  | .consItem item rest =>
    processEntries rest { st with intermediate := st.intermediate ++ [item] }
  | .consAction child rest =>
    match processOneAction child st with
    | .error e => .error e
    | .ok st1 => processEntries rest st1
end

/-- The `this.actions.forEach(processAction)` loop of `processActions`. -/
def processActionList (actions : List ActionTree) (st : FlatState) : Except String FlatState :=
  match actions with
  | [] => .ok st
  | a :: rest =>
    match processOneAction a st with
    | .error e => .error e
    | .ok st1 => processActionList rest st1

/-- `ActionProcessor.processActions` (src/index.ts lines 164-211): flatten
all top-level actions, then check that some action starts at flattened
index 0 (`actionStartIndeces[0][0]` must exist). -/
def processActions (actions : List ActionTree) : Except String FlatState :=
  match processActionList actions ⟨[], [], []⟩ with
  | .error e => .error e
  | .ok st =>
    if st.starts.any (fun s => s.index = 0) then .ok st
    else .error "FATAL ERROR: No first action; processActions() created unexpected output."

/-- The `processStack` pass (src/index.ts lines 213-311) restricted to the
item forms of this development: `Instruction` items go through the
swap/delta simulation (`processStackInstruction`; none of them originate
from a `HotSwapStackReference`), all other items leave the stack untouched.
The `stackHistory` snapshots, which only feed the lowering of stack
references, are modelled separately with `processStackInstruction`. -/
def processStackItems (items : List Item) (st : SimState) : Except String SimState :=
  match items with
  | [] => .ok st
  | .instr i :: rest =>
    match processStackInstruction st i false with
    | .error e => .error e
    | .ok st1 => processStackItems rest st1
  | .lit _ :: rest => processStackItems rest st
  | .actionPtr _ :: rest => processStackItems rest st

/-- `byteLength(item)` for flattened items: one byte per opcode
(`Instruction.byteLength`, src/grammar.ts lines 192-194), `byteLengthNat`
for numeric literals (src/helpers.ts), `POINTER_BYTE_LENGTH` for pointers
(src/grammar.ts lines 537-539). -/
def itemByteLength : Item → Nat
  | .instr _ => 1
  | .lit n => byteLengthNat n
  | .actionPtr _ => POINTER_BYTE_LENGTH

/-- `totalBytesAtInstruction[i] - bytesPerInstruction[i]` (src/index.ts
lines 313-336): the byte offset of the first byte of the item at index
`idx`, i.e. the sum of the byte lengths of the items before it. -/
def offsetAt (items : List Item) (idx : Nat) : Nat :=
  ((items.take idx).map itemByteLength).sum

/-- `ActionProcessor.processJumpDestinations` (src/index.ts lines 327-337):
for every recorded start entry, the action's id maps to the byte offset of
its first flattened item (its JUMPDEST when it has one). -/
def processJumpDestinations (items : List Item) (starts : List StartEntry) : List (Nat × Nat) :=
  starts.map (fun s => (s.actionId, offsetAt items s.index))

/-- `codeLocations[action.id]`: look up a resolved jump offset by action
id. -/
def lookupJumpDestination (jd : List (Nat × Nat)) (actionId : Nat) : Nat :=
  ((jd.find? (fun p => p.1 = actionId)).map (fun p => p.2)).getD 0

/-- `item.toHex(...)` for flattened items: `BigInt(code).toString(16)` for
opcodes (src/grammar.ts lines 196-198), `toString(16)` for numeric
literals (src/helpers.ts line 61), and the left-padded resolved offset for
action pointers (src/grammar.ts lines 530-535). -/
def itemToHexRaw (jd : List (Nat × Nat)) : Item → List Char
  | .instr i => natToHexChars i.code
  | .lit n => natToHexChars n
  | .actionPtr actionId => actionPointerToHex (lookupJumpDestination jd actionId)

/-- `translateToBytecode` (src/helpers.ts lines 55-65):
`ensureFullByte(bytecode).toUpperCase()`. -/
def translateToBytecode (jd : List (Nat × Nat)) (item : Item) : List Char :=
  (ensureFullByte (itemToHexRaw jd item)).map toUpperChar

/-- `ActionProcessor.toHex` (src/index.ts lines 339-369): translate every
item, keep the truthy (non-empty) translations, left-pad each to an even
number of hex digits, join, reject an odd total, then return
`"0x" + output.toUpperCase()`. -/
def processorToHex (items : List Item) (jd : List (Nat × Nat)) : Except String (List Char) :=
  let bytecode := (items.map (translateToBytecode jd)).filter (fun t => t ≠ [])
  let output := (bytecode.map (fun s => ensureFullByte s)).flatten
  if output.length % 2 ≠ 0 then
    .error "CRITICAL FAILURE: Final value has odd byte offset!"
  else
    .ok ('0' :: 'x' :: output.map toUpperChar)

/-- `ActionProcessor.processAll` (src/index.ts lines 156-162) over the item
forms of this development: flatten, simulate the stack, compute jump
destinations, emit hex. -/
def processAll (actions : List ActionTree) : Except String (List Char) :=
  match processActions actions with
  | .error e => .error e
  | .ok st =>
    match processStackItems st.intermediate ⟨0, []⟩ with
    | .error e => .error e
    | .ok _ =>
      let jd := processJumpDestinations st.intermediate st.starts
      processorToHex st.intermediate jd

/-! ## src/index.ts: the jump-destination promotion walk (lines 101-109) -/

/-- A value bound in the host namespace after script evaluation, as far as
the promotion walk is concerned: either an `ActionPointer` to some action
id, or anything else. -/
inductive BindingValue where
  | actionPointer (actionId : Nat)
  | other
deriving DecidableEq, Repr

/-- `key.indexOf("_") == 0`, i.e. the name's first character is an
underscore (an empty name does not start with one). -/
def startsWithUnderscore (key : String) : Bool :=
  match key.data with
  | [] => false
  | c :: _ => c = '_'

/-- Whether one binding promotes the action `actionId`: its value is an
`ActionPointer` to that action and its name does not start with `"_"`
(`key.indexOf("_") != 0`). -/
def bindingPromotes (binding : String × BindingValue) (actionId : Nat) : Bool :=
  (match binding.2 with
   | .actionPointer a => decide (a = actionId)
   | .other => false)
  && !(startsWithUnderscore binding.1)

/-- The promotion walk (src/index.ts lines 105-109): every binding whose
value is an `ActionPointer` and whose name does not start with `"_"` has
`setIsJumpDestination()` called on its action; the flag of every other
action is left as it was at the end of script evaluation. -/
def applyJumpDestinationWalk (bindings : List (String × BindingValue))
    (isMarked : Nat → Bool) : Nat → Bool :=
  fun actionId => isMarked actionId || bindings.any (fun b => bindingPromotes b actionId)

/-! ## Basic lemmas about hex rendering -/

theorem natToHexAux_zero (fuel : Nat) : natToHexAux fuel 0 = [] := by
  cases fuel <;> simp [natToHexAux]

theorem natToHexAux_length (fuel : Nat) :
    ∀ n, 0 < n → n ≤ fuel → (natToHexAux fuel n).length = Nat.log 16 n + 1 := by
  induction fuel with
  | zero => intro n hn hf; omega
  | succ fuel ih =>
    intro n hn hf
    rw [natToHexAux, if_neg (by omega)]
    by_cases h16 : n < 16
    · rw [Nat.div_eq_of_lt h16, natToHexAux_zero]
      simp [Nat.log_eq_zero_iff.mpr (Or.inl h16)]
    · have hdiv_pos : 0 < n / 16 := Nat.div_pos (le_of_not_lt h16) (by norm_num)
      have hdiv_le : n / 16 ≤ fuel := by
        have := Nat.div_lt_self hn (show 1 < 16 by norm_num)
        omega
      have hlog : Nat.log 16 (n / 16) = Nat.log 16 n - 1 := Nat.log_div_base 16 n
      have hpos : 0 < Nat.log 16 n := Nat.log_pos (by norm_num) (le_of_not_lt h16)
      rw [List.length_append, ih _ hdiv_pos hdiv_le]
      simp only [List.length_singleton]
      omega

theorem natToHexChars_length (n : Nat) :
    (natToHexChars n).length = if n = 0 then 1 else Nat.log 16 n + 1 := by
  by_cases h : n = 0
  · simp [natToHexChars, h]
  · rw [natToHexChars, if_neg h, if_neg h]
    exact natToHexAux_length n n (Nat.pos_of_ne_zero h) le_rfl

theorem natToHexChars_length_pos (n : Nat) : 1 ≤ (natToHexChars n).length := by
  rw [natToHexChars_length]
  split <;> omega

theorem byteLengthNat_pos (n : Nat) : 1 ≤ byteLengthNat n := by
  have := natToHexChars_length_pos n
  unfold byteLengthNat
  omega

/-! ## Claim C1 -/

/-- Claim C1: during pass-2 lowering, a `DupStackReference` at current
depth `d` is replaced by DUP(d+1) — opcode 0x80 + d with stack delta
(0, 1) — and raises the too-deep error exactly when d+1 > 16; a
`SwapStackReference` at depth `d` is replaced by SWAP(d) — opcode
0x90 + (d-1) with stack delta (0, 0) — and raises the too-deep error
exactly when d = 0 or d > 16. -/
theorem C1_stack_reference_lowering (actionName : String) (depth : Nat) :
    (depth + 1 ≤ 16 →
      dupGetReplacement actionName depth = .ok ⟨0x80 + depth, 0, 1⟩)
    ∧ (16 < depth + 1 →
      dupGetReplacement actionName depth = .error (dupTooDeepMessage actionName))
    ∧ (1 ≤ depth → depth ≤ 16 →
      swapGetReplacement actionName depth = .ok ⟨0x90 + (depth - 1), 0, 0⟩)
    ∧ ((depth = 0 ∨ 16 < depth) →
      swapGetReplacement actionName depth = .error (swapTooDeepMessage actionName)) := by
  refine ⟨fun h => ?_, fun h => ?_, fun h1 h16 => ?_, fun h => ?_⟩
  · simp [dupGetReplacement, dupInstruction, h]
  · rw [dupGetReplacement]
    simp only [dupInstruction, if_neg (by omega : ¬(1 ≤ depth + 1 ∧ depth + 1 ≤ 16))]
  · simp [swapGetReplacement, swapInstruction, h1, h16]
  · rw [swapGetReplacement]
    simp only [swapInstruction, if_neg (by omega : ¬(1 ≤ depth ∧ depth ≤ 16))]

/-- Witness for C1: DUP lowering succeeds at depth 15 (DUP16) and fails at
depth 16; SWAP lowering succeeds at depth 16 (SWAP16) and fails at depths
0 and 17. -/
theorem C1_stack_reference_lowering_witness :
    dupGetReplacement "alloc" 15 = .ok ⟨0x8f, 0, 1⟩
    ∧ dupGetReplacement "alloc" 16 = .error (dupTooDeepMessage "alloc")
    ∧ swapGetReplacement "set" 16 = .ok ⟨0x9f, 0, 0⟩
    ∧ swapGetReplacement "set" 0 = .error (swapTooDeepMessage "set")
    ∧ swapGetReplacement "set" 17 = .error (swapTooDeepMessage "set") :=
  ⟨(C1_stack_reference_lowering "alloc" 15).1 (by norm_num),
   (C1_stack_reference_lowering "alloc" 16).2.1 (by norm_num),
   (C1_stack_reference_lowering "set" 16).2.2.1 (by norm_num) (by norm_num),
   (C1_stack_reference_lowering "set" 0).2.2.2 (Or.inl rfl),
   (C1_stack_reference_lowering "set" 17).2.2.2 (Or.inr (by norm_num))⟩

/-! ## Claim C2 -/

/-- Claim C2: during stack simulation, a SWAPn instruction (1 ≤ n ≤ 16, as
produced by the `Instruction["SWAP" + n]` table) that was not lowered from
a `HotSwapStackReference` fails with the swap-index-out-of-range error
when n ≥ stack size (in particular on a single-item stack), and otherwise
exchanges the simulated entries at indices 0 and n, leaving the reference
counter unchanged; a SWAP lowered from a `HotSwapStackReference` leaves
the whole simulation state unchanged. -/
theorem C2_swap_simulation (st : SimState) (n : Nat) (i : Instruction)
    (hi : swapInstruction n = some i) :
    (st.stack.length ≤ n →
      processStackInstruction st i false = .error (swapOutOfRangeMessage n))
    ∧ (n < st.stack.length →
      processStackInstruction st i false = .ok ⟨st.counter, exchangeTop st.stack n⟩)
    ∧ processStackInstruction st i true = .ok st := by
  rw [swapInstruction] at hi
  split at hi
  case isFalse => exact absurd hi (by simp)
  case isTrue hrange =>
    obtain ⟨h1, h16⟩ := hrange
    injection hi with hival
    subst hival
    have hswap : Instruction.isSwap ⟨0x90 + (n - 1), 0, 0⟩ = true := by
      simp [Instruction.isSwap]
      omega
    have hindex : 0x90 + (n - 1) - 0x90 + 1 = n := by omega
    refine ⟨fun hlen => ?_, fun hlen => ?_, ?_⟩
    · rw [processStackInstruction, if_pos ⟨hswap, rfl⟩]
      simp only [hindex]
      rw [if_pos hlen]
    · rw [processStackInstruction, if_pos ⟨hswap, rfl⟩]
      simp only [hindex]
      rw [if_neg (by omega)]
      rfl
    · rw [processStackInstruction, if_neg (by simp)]
      rfl

/-- Witness for C2: SWAP1 on the single-item stack [10] fails with the
out-of-range error; SWAP1 on [10, 11] exchanges the two references; a
hot-swap SWAP1 on [10] leaves the state untouched. -/
theorem C2_swap_simulation_witness :
    processStackInstruction ⟨5, [10]⟩ ⟨0x90, 0, 0⟩ false = .error (swapOutOfRangeMessage 1)
    ∧ processStackInstruction ⟨5, [10, 11]⟩ ⟨0x90, 0, 0⟩ false = .ok ⟨5, [11, 10]⟩
    ∧ processStackInstruction ⟨5, [10]⟩ ⟨0x90, 0, 0⟩ true = .ok ⟨5, [10]⟩ :=
  ⟨(C2_swap_simulation ⟨5, [10]⟩ 1 ⟨0x90, 0, 0⟩ (by rfl)).1 (by norm_num),
   ((C2_swap_simulation ⟨5, [10, 11]⟩ 1 ⟨0x90, 0, 0⟩ (by rfl)).2.1 (by norm_num)).trans (by rfl),
   (C2_swap_simulation ⟨5, [10]⟩ 1 ⟨0x90, 0, 0⟩ (by rfl)).2.2⟩

/-! ## Claim C10 -/

/-- Claim C10: every instruction that adds simulated stack entries unshifts
freshly created reference ids (all ≥ the current counter) on top; in
particular DUPn (1 ≤ n ≤ 16, from the `Instruction["DUP" + n]` table)
pushes one fresh reference and never places the duplicated slot's
reference at the new top, so any reference already on the stack resolves
one slot deeper than before and never to the copy. -/
theorem C10_dup_pushes_fresh (st : SimState) :
    (∀ (instruction : Instruction) (hot : Bool) (st' : SimState),
      processStackInstruction st instruction hot = .ok st' →
      ∃ rest, st'.stack =
          ((List.range instruction.stackAdded).map (fun j => st.counter + j)).reverse ++ rest
        ∧ ∀ r ∈ (List.range instruction.stackAdded).map (fun j => st.counter + j),
            st.counter ≤ r)
    ∧ (∀ (n : Nat) (i : Instruction) (hot : Bool), dupInstruction n = some i →
        processStackInstruction st i hot = .ok ⟨st.counter + 1, st.counter :: st.stack⟩)
    ∧ (∀ r ∈ st.stack, r < st.counter →
        st.counter ≠ r
        ∧ (st.counter :: st.stack).indexOf r = st.stack.indexOf r + 1) := by
  refine ⟨?_, ?_, ?_⟩
  · intro instruction hot st' h
    simp only [processStackInstruction] at h
    split at h
    · split at h
      · exact absurd h (by simp)
      · injection h with h2
        subst h2
        refine ⟨(exchangeTop st.stack (instruction.code - 0x90 + 1)).drop instruction.stackRemoved,
          rfl, ?_⟩
        intro r hr
        simp only [List.mem_map, List.mem_range] at hr
        obtain ⟨j, _, hj⟩ := hr
        omega
    · injection h with h2
      subst h2
      refine ⟨st.stack.drop instruction.stackRemoved, rfl, ?_⟩
      intro r hr
      simp only [List.mem_map, List.mem_range] at hr
      obtain ⟨j, _, hj⟩ := hr
      omega
  · intro n i hot hi
    rw [dupInstruction] at hi
    split at hi
    case isFalse => exact absurd hi (by simp)
    case isTrue hrange =>
      injection hi with hival
      subst hival
      rw [processStackInstruction, if_neg ?_]
      · rfl
      · intro hcontra
        have := hcontra.1
        simp [Instruction.isSwap] at this
        omega
  · intro r hr hlt
    refine ⟨by omega, ?_⟩
    rw [List.indexOf_cons_ne _ (by omega : st.counter ≠ r)]

/-- Witness for C10: DUP2 on the stack [1, 0] (counter 3) pushes the fresh
reference 3 on top — not the duplicated slot's reference 0 — and the
existing reference 1 now resolves one slot deeper. -/
theorem C10_dup_pushes_fresh_witness :
    processStackInstruction ⟨3, [1, 0]⟩ ⟨0x81, 0, 1⟩ false = .ok ⟨4, [3, 1, 0]⟩
    ∧ ([3, 1, 0] : List Nat).indexOf 1 = [1, 0].indexOf 1 + 1 := by
  obtain ⟨_, hdup, hidx⟩ := C10_dup_pushes_fresh ⟨3, [1, 0]⟩
  exact ⟨hdup 2 ⟨0x81, 0, 1⟩ false (by rfl), (hidx 1 (by simp) (by norm_num)).2⟩

/-! ## Arithmetic lemmas for the padding formulas -/

theorem specRoundUpToMultiple_eq (m L : Nat) (hL : 1 ≤ L) :
    specRoundUpToMultiple m L = if m % L = 0 then m else m + (L - m % L) := by
  have hdm : L * (m / L) + m % L = m := Nat.div_add_mod m L
  have hmod_lt : m % L < L := Nat.mod_lt _ (by omega)
  rw [specRoundUpToMultiple]
  by_cases h0 : m % L = 0
  · rw [if_pos h0]
    have hdiv : (m + L - 1) / L = m / L := by
      apply Nat.div_eq_of_lt_le
      · rw [Nat.mul_comm]
        generalize L * (m / L) = Q at hdm ⊢
        omega
      · rw [Nat.succ_mul, Nat.mul_comm]
        generalize L * (m / L) = Q at hdm ⊢
        omega
    rw [hdiv]
    generalize L * (m / L) = Q at hdm ⊢
    omega
  · rw [if_neg h0]
    have hdiv : (m + L - 1) / L = m / L + 1 := by
      apply Nat.div_eq_of_lt_le
      · rw [Nat.mul_comm, Nat.mul_add, Nat.mul_one]
        generalize L * (m / L) = Q at hdm ⊢
        omega
      · rw [Nat.succ_mul, Nat.mul_comm, Nat.mul_add, Nat.mul_one]
        generalize L * (m / L) = Q at hdm ⊢
        omega
    rw [hdiv, Nat.mul_add, Nat.mul_one]
    generalize L * (m / L) = Q at hdm ⊢
    omega

theorem padCount_double (m L : Nat) (hL : 1 ≤ L) :
    padCount (2 * m) (L * 2) = 2 * specRoundUpToMultiple m L - 2 * m := by
  rw [specRoundUpToMultiple_eq m L hL, padCount]
  have h2 : (2 * m) % (L * 2) = 2 * (m % L) := by
    rw [Nat.mul_comm L 2, Nat.mul_mod_mul_left]
  rw [h2]
  have hmod_lt : m % L < L := Nat.mod_lt _ (by omega)
  generalize m % L = r at *
  by_cases h0 : r = 0
  · subst h0
    simp
  · rw [if_neg h0, Nat.mod_eq_of_lt (by omega)]
    omega

theorem padCount_of_pos_le (c M : Nat) (hc : 0 < c) (hM : c ≤ M) :
    padCount c M = M - c := by
  rw [padCount]
  by_cases h : c = M
  · subst h
    simp
  · have h1 : c % M = c := Nat.mod_eq_of_lt (by omega)
    rw [h1, Nat.mod_eq_of_lt (by omega)]

/-! ## Claim C3 -/

/-- Claim C3 (amended): `Padded(v, len, side).byteLength()` is
`byteLength(v) + (len - byteLength(v) % len)`: the round-up of
`byteLength(v)` to the next multiple of `len` when it is not already a
multiple, and `byteLength(v) + len` — a full extra block — when it is.
The emitted hex is nevertheless the inner hex padded to exactly the
rounded-up visible length: side left prepends zero digits and side right
appends zero digits. -/
theorem C3_padded (itemLength lengthInBytes : Nat) (s : List Char)
    (hL : 1 ≤ lengthInBytes) (hs : s.length = 2 * itemLength) :
    (itemLength % lengthInBytes ≠ 0 →
      paddedByteLength itemLength lengthInBytes =
        specRoundUpToMultiple itemLength lengthInBytes)
    ∧ (itemLength % lengthInBytes = 0 →
      paddedByteLength itemLength lengthInBytes = itemLength + lengthInBytes)
    ∧ paddedToHex s lengthInBytes .left =
        List.replicate
          (2 * specRoundUpToMultiple itemLength lengthInBytes - 2 * itemLength) '0' ++ s
    ∧ paddedToHex s lengthInBytes .right =
        s ++ List.replicate
          (2 * specRoundUpToMultiple itemLength lengthInBytes - 2 * itemLength) '0' := by
  have hspec := specRoundUpToMultiple_eq itemLength lengthInBytes hL
  have hpad : padCount s.length (lengthInBytes * 2) =
      2 * specRoundUpToMultiple itemLength lengthInBytes - 2 * itemLength := by
    rw [hs]
    exact padCount_double itemLength lengthInBytes hL
  refine ⟨fun h0 => ?_, fun h0 => ?_, ?_, ?_⟩
  · rw [paddedByteLength, hspec, if_neg h0]
  · rw [paddedByteLength, hspec] at *
    rw [h0] at *
    omega
  · rw [paddedToHex, leftPad, hpad]
  · rw [paddedToHex, rightPad, hpad]

/-- Counterexample for C3 as stated: for a 2-byte value (0x1234) padded
with len = 2, the code's byte length is 4, not the claimed round-up 2. -/
theorem C3_padded_counterexample :
    paddedByteLength (byteLengthNat 0x1234) 2 = 4
    ∧ specRoundUpToMultiple (byteLengthNat 0x1234) 2 = 2
    ∧ (4 : Nat) ≠ 2 := by
  refine ⟨by decide, by decide, by decide⟩

/-- Witness for C3: at itemLength 1, len 4 (the `$pad(1, 4)` test case) the
byte length is the round-up 4, and for a 2-digit inner hex the emitted hex
gains six zero digits on the chosen side. -/
theorem C3_padded_witness :
    paddedByteLength 1 4 = specRoundUpToMultiple 1 4
    ∧ paddedByteLength 2 2 = 2 + 2
    ∧ paddedToHex ['f', 'f'] 4 .left =
        List.replicate (2 * specRoundUpToMultiple 1 4 - 2 * 1) '0' ++ ['f', 'f']
    ∧ paddedToHex ['f', 'f'] 4 .right =
        ['f', 'f'] ++ List.replicate (2 * specRoundUpToMultiple 1 4 - 2 * 1) '0' := by
  obtain ⟨h1, _, h3, h4⟩ := C3_padded 1 4 ['f', 'f'] (by norm_num) (by rfl)
  obtain ⟨_, h2, _, _⟩ := C3_padded 2 2 ['a', 'b', 'c', 'd'] (by norm_num) (by rfl)
  exact ⟨h1 (by norm_num), h2 (by norm_num), h3, h4⟩

/-! ## Claim C4 -/

/-- Claim C4 (amended): for k labels, `JumpMap.byteLength()` is
`2k + (32 - (2k mod 32))`: the round-up of 2k to the next multiple of 32
when 2k is not already a multiple of 32 (so 32 for 1 ≤ k ≤ 15, and 64 for
k = 18), but a full extra word when it is — a JumpMap of 16 labels
reports 64 bytes, not 32. -/
theorem C4_jumpmap_byteLength (labels : List String) :
    jumpMapByteLength labels = 2 * labels.length + (32 - (2 * labels.length) % 32)
    ∧ ((2 * labels.length) % 32 ≠ 0 →
        jumpMapByteLength labels = specRoundUpToMultiple (2 * labels.length) 32)
    ∧ (1 ≤ labels.length → labels.length ≤ 15 → jumpMapByteLength labels = 32)
    ∧ (labels.length = 16 → jumpMapByteLength labels = 64)
    ∧ (labels.length = 18 → jumpMapByteLength labels = 64) := by
  have hsum : (labels.map (fun _ => POINTER_BYTE_LENGTH)).sum = labels.length * 2 := by
    induction labels with
    | nil => rfl
    | cons a t ih =>
      simp only [List.map_cons, List.sum_cons, List.length_cons, ih]
      rw [POINTER_BYTE_LENGTH]
      omega
  have hlen : jumpMapByteLength labels =
      labels.length * 2 + (32 - (labels.length * 2) % 32) := by
    rw [jumpMapByteLength, hsum]
  have hspec := specRoundUpToMultiple_eq (2 * labels.length) 32 (by norm_num)
  refine ⟨by omega, fun h0 => ?_, fun h1 h15 => by omega, fun h => by omega, fun h => by omega⟩
  rw [hspec, if_neg h0]
  omega

/-- Counterexample for C4 as stated: a JumpMap of exactly 16 labels has
byte length 64 in the code, while round_up(2 * 16, 32) = 32. -/
theorem C4_jumpmap_counterexample :
    jumpMapByteLength (List.replicate 16 "label") = 64
    ∧ specRoundUpToMultiple (2 * 16) 32 = 32
    ∧ (64 : Nat) ≠ 32 := by
  refine ⟨by rfl, by rfl, by decide⟩

/-- Witness for C4: the spec's own examples — `$jumpmap("a","b","c")` is 32
bytes and a JumpMap of 18 labels is 64 bytes. -/
theorem C4_jumpmap_witness :
    jumpMapByteLength ["a", "b", "c"] = 32
    ∧ jumpMapByteLength (List.replicate 18 "label") = 64 :=
  ⟨(C4_jumpmap_byteLength ["a", "b", "c"]).2.2.1 (by norm_num) (by norm_num),
   (C4_jumpmap_byteLength (List.replicate 18 "label")).2.2.2.2 (by simp)⟩

/-! ## Claim C5 -/

/-- Claim C5 (amended): for `ByteRange(v, start, len)` with
`start ≤ byte_length(v)` (the constructor admits exactly these) and
`len ≥ 1`, the byte_length is exactly `len`; when `start < byte_length(v)`
the emitted hex is the slice of the inner hex beginning at byte `start`,
right-padded with zero digits to exactly `2*len` digits; but when
`start = byte_length(v)` the slice is empty and `rightPad` adds nothing,
so the emitted hex has 0 digits, not `2*len`. -/
theorem C5_byterange (itemLength start len : Nat) (s : List Char)
    (hs : s.length = 2 * itemLength) (hlen : 1 ≤ len) (hstart : start ≤ itemLength) :
    byteRangeConstructorCheck itemLength start = .ok ()
    ∧ byteRangeByteLength len = len
    ∧ (start < itemLength →
        (byteRangeToHex s start len).length = 2 * len
        ∧ byteRangeToHex s start len =
            (s.drop (start * 2)).take (len * 2)
              ++ List.replicate (2 * len - ((s.drop (start * 2)).take (len * 2)).length) '0')
    ∧ (start = itemLength → byteRangeToHex s start len = []) := by
  refine ⟨?_, rfl, fun hlt => ?_, fun heq => ?_⟩
  · rw [byteRangeConstructorCheck, if_neg (by omega)]
  · have hchunk_len : ((s.drop (start * 2)).take (len * 2)).length =
        min (len * 2) (s.length - start * 2) := by
      rw [List.length_take, List.length_drop]
    have hchunk_pos : 0 < ((s.drop (start * 2)).take (len * 2)).length := by
      rw [hchunk_len]
      omega
    have hchunk_le : ((s.drop (start * 2)).take (len * 2)).length ≤ len * 2 := by
      rw [hchunk_len]
      omega
    have hpad := padCount_of_pos_le _ (len * 2) hchunk_pos hchunk_le
    constructor
    · rw [byteRangeToHex, rightPad, List.length_append, List.length_replicate, hpad]
      omega
    · rw [byteRangeToHex, rightPad, hpad]
      have : len * 2 - ((s.drop (start * 2)).take (len * 2)).length =
          2 * len - ((s.drop (start * 2)).take (len * 2)).length := by omega
      rw [this]
  · have hdrop : s.drop (start * 2) = [] := by
      apply List.drop_eq_nil_of_le
      omega
    rw [byteRangeToHex, hdrop, List.take_nil, rightPad]
    simp [padCount]

/-- Counterexample for C5 as stated: for a 1-byte inner value with hex
"01", the admissible range `ByteRange(v, 1, 2)` (start = byte_length(v))
emits the empty hex string — 0 digits — although the claim promises
2*len = 4 digits. -/
theorem C5_byterange_counterexample :
    byteRangeConstructorCheck 1 1 = .ok ()
    ∧ byteRangeToHex ['0', '1'] 1 2 = []
    ∧ (byteRangeToHex ['0', '1'] 1 2).length ≠ 2 * 2 :=
  ⟨rfl, rfl, by decide⟩

/-- Witness for C5: slicing the 2-byte value 0x1234 from byte 1 with
len = 2 keeps byte_length 2 and emits "34" padded to "3400". -/
theorem C5_byterange_witness :
    byteRangeConstructorCheck 2 1 = .ok ()
    ∧ byteRangeByteLength 2 = 2
    ∧ (byteRangeToHex ['1', '2', '3', '4'] 1 2).length = 2 * 2
    ∧ byteRangeToHex ['1', '2', '3', '4'] 1 2 = ['3', '4', '0', '0'] := by
  obtain ⟨h1, h2, h3, _⟩ := C5_byterange 2 1 2 ['1', '2', '3', '4']
    (by rfl) (by norm_num) (by norm_num)
  obtain ⟨h4, h5⟩ := h3 (by norm_num)
  exact ⟨h1, h2, h4, h5.trans (by rfl)⟩

/-! ## Claim C6 -/

/-- Claim C6 (amended): `push(v)` fails with the cannot-accept-actions
error whenever `v` is the result of another action; for a numeric literal
it selects `PUSH(byteLength(v))` among PUSH1..PUSH32 (opcode
0x60 + byteLength(v) - 1) and emits it followed by `v` whenever
`byteLength(v) ≤ 32` (so a 32-byte literal emits PUSH32 followed by the
literal); when `byteLength(v) > 32` it fails — with the
`is32BytesOrLess` matcher message "Expected input to be less than or
equal to 32 bytes", not with "cannot accept values larger than 32
bytes". -/
theorem C6_push (n : Nat) :
    push .actionResult = .error pushActionResultMessage
    ∧ (byteLengthNat n ≤ 32 →
        push (.lit n) = .ok [Item.instr ⟨0x60 + (byteLengthNat n - 1), 0, 1⟩, Item.lit n])
    ∧ (32 < byteLengthNat n → push (.lit n) = .error is32BytesOrLessMessage) := by
  refine ⟨rfl, fun h32 => ?_, fun h32 => ?_⟩
  · have h1 := byteLengthNat_pos n
    rw [push, if_neg (by omega), pushIntermediate, pushInstruction, if_pos ⟨h1, h32⟩]
  · rw [push, if_pos h32]

/-- Counterexample for C6 as stated: the 33-byte literal 2^256 fails, but
with the `ensure` matcher message, which is not the claimed message
"cannot accept values larger than 32 bytes". -/
theorem C6_push_counterexample :
    byteLengthNat (2 ^ 256) = 33
    ∧ push (.lit (2 ^ 256)) = .error is32BytesOrLessMessage
    ∧ is32BytesOrLessMessage ≠ "cannot accept values larger than 32 bytes" := by
  refine ⟨by decide, ?_, by decide⟩
  rw [push, if_pos (by decide)]

/-- Witness for C6: the 32-byte literal 2^255 emits PUSH32 (0x7F) followed
by the literal, and the action-result error fires. -/
theorem C6_push_witness :
    push .actionResult = .error pushActionResultMessage
    ∧ push (.lit (2 ^ 255)) = .ok [Item.instr ⟨0x7f, 0, 1⟩, Item.lit (2 ^ 255)]
    ∧ push (.lit (2 ^ 256)) = .error is32BytesOrLessMessage := by
  obtain ⟨h1, h2, _⟩ := C6_push (2 ^ 255)
  obtain ⟨_, _, h3⟩ := C6_push (2 ^ 256)
  refine ⟨h1, (h2 (by decide)).trans ?_, h3 (by decide)⟩
  have hbl : byteLengthNat (2 ^ 255) = 32 := by decide
  rw [hbl]

/-! ## Claim C7 -/

/-- Claim C7 (amended): every resolved pointer (`ActionPointer`; a resolved
`LabelPointer` delegates to it) declares byte length 2, and its emitted
hex occupies exactly 2 bytes (4 hex digits) whenever the resolved offset
is < 2^16; an offset ≥ 2^16 is NOT a compile error: `toHex` left-pads the
offset's hex to the next multiple of 2 bytes and silently emits more than
2 bytes while `byteLength()` still reports 2. -/
theorem C7_pointer_width (k : Nat) :
    pointerByteLength = POINTER_BYTE_LENGTH
    ∧ (k < 2 ^ 16 → (actionPointerToHex k).length = 2 * POINTER_BYTE_LENGTH)
    ∧ (2 ^ 16 ≤ k → 2 * POINTER_BYTE_LENGTH < (actionPointerToHex k).length) := by
  have hlen : (actionPointerToHex k).length =
      padCount (natToHexChars k).length 4 + (natToHexChars k).length := by
    rw [actionPointerToHex, leftPad, List.length_append, List.length_replicate]
    rfl
  have hpos := natToHexChars_length_pos k
  refine ⟨rfl, fun hk => ?_, fun hk => ?_⟩
  · have hup : (natToHexChars k).length ≤ 4 := by
      rw [natToHexChars_length]
      by_cases h0 : k = 0
      · rw [if_pos h0]
        omega
      · rw [if_neg h0]
        have : Nat.log 16 k < 4 :=
          (Nat.lt_pow_iff_log_lt (by norm_num) h0).mp (by norm_num at hk ⊢; omega)
        omega
    rw [hlen, padCount, POINTER_BYTE_LENGTH]
    omega
  · have hup : 5 ≤ (natToHexChars k).length := by
      rw [natToHexChars_length, if_neg (by positivity)]
      have : 4 ≤ Nat.log 16 k :=
        (Nat.pow_le_iff_le_log (by norm_num) (by positivity)).mp (by norm_num at hk ⊢; omega)
      omega
    rw [hlen, padCount, POINTER_BYTE_LENGTH]
    omega

/-- Counterexample for C7 as stated: the offset 2^16 resolves without any
compile error to the 4-byte (8-digit) string "00010000", so the pointer
does not occupy exactly 2 bytes and no error is raised. -/
theorem C7_pointer_width_counterexample :
    actionPointerToHex 65536 = ['0', '0', '0', '1', '0', '0', '0', '0']
    ∧ (actionPointerToHex 65536).length ≠ 2 * POINTER_BYTE_LENGTH :=
  ⟨rfl, by decide⟩

/-- Witness for C7: the maximal in-range offset 65535 emits exactly 4 hex
digits, and 65536 emits more. -/
theorem C7_pointer_width_witness :
    (actionPointerToHex 65535).length = 2 * POINTER_BYTE_LENGTH
    ∧ 2 * POINTER_BYTE_LENGTH < (actionPointerToHex 65536).length :=
  ⟨(C7_pointer_width 65535).2.1 (by norm_num),
   (C7_pointer_width 65536).2.2 (by norm_num)⟩

/-! ## Character-class lemmas for the emitted hex -/

/-- Uppercase hex digit: 0-9 or A-F. -/
def isUpperHexDigit (c : Char) : Bool :=
  (decide ('0' ≤ c) && decide (c ≤ '9')) || (decide ('A' ≤ c) && decide (c ≤ 'F'))

theorem mem_natToHexAux {fuel n : Nat} {c : Char} (h : c ∈ natToHexAux fuel n) :
    ∃ d, d < 16 ∧ c = hexCharOfDigit d := by
  induction fuel generalizing n with
  | zero => simp [natToHexAux] at h
  | succ fuel ih =>
    rw [natToHexAux] at h
    split at h
    · simp at h
    · rw [List.mem_append] at h
      rcases h with h | h
      · exact ih h
      · exact ⟨n % 16, Nat.mod_lt _ (by norm_num), by simpa using h⟩

theorem mem_natToHexChars {n : Nat} {c : Char} (h : c ∈ natToHexChars n) :
    ∃ d, d < 16 ∧ c = hexCharOfDigit d := by
  rw [natToHexChars] at h
  split at h
  · exact ⟨0, by norm_num, by simpa using h⟩
  · exact mem_natToHexAux h

theorem mem_ensureFullByte {s : List Char} {c : Char} (h : c ∈ ensureFullByte s) :
    c = '0' ∨ c ∈ s := by
  rw [ensureFullByte, leftPad] at h
  rcases List.mem_append.mp h with h | h
  · exact Or.inl (List.eq_of_mem_replicate h)
  · exact Or.inr h

theorem mem_itemToHexRaw {jd : List (Nat × Nat)} {it : Item} {c : Char}
    (h : c ∈ itemToHexRaw jd it) : ∃ d, d < 16 ∧ c = hexCharOfDigit d := by
  cases it with
  | instr i => exact mem_natToHexChars h
  | lit n => exact mem_natToHexChars h
  | actionPtr actionId =>
    rw [itemToHexRaw, actionPointerToHex, leftPad] at h
    rcases List.mem_append.mp h with h | h
    · exact ⟨0, by norm_num, by rw [List.eq_of_mem_replicate h]; rfl⟩
    · exact mem_natToHexChars h

theorem upperHexDigit_of_digit :
    ∀ d, d < 16 → isUpperHexDigit (toUpperChar (toUpperChar (hexCharOfDigit d))) = true := by
  decide

theorem mem_translateToBytecode {jd : List (Nat × Nat)} {it : Item} {c : Char}
    (h : c ∈ translateToBytecode jd it) :
    ∃ d, d < 16 ∧ c = toUpperChar (hexCharOfDigit d) := by
  rw [translateToBytecode] at h
  obtain ⟨c', hc', rfl⟩ := List.mem_map.mp h
  rcases mem_ensureFullByte hc' with h0 | hraw
  · exact ⟨0, by norm_num, by rw [h0]; rfl⟩
  · obtain ⟨d, hd, rfl⟩ := mem_itemToHexRaw hraw
    exact ⟨d, hd, rfl⟩

/-! ## Claim C9 -/

/-- Claim C9 (amended): `preprocess` on the empty script — a script that
creates no Actions — does not return "0x": the processor's sanity check
fails with "FATAL ERROR: No first action; processActions() created
unexpected output.".  Every successful compile does return "0x" followed
by an even number of uppercase hex digits. -/
theorem C9_output_format (actions : List ActionTree) (out : List Char)
    (h : processAll actions = .ok out) :
    ∃ s, out = '0' :: 'x' :: s ∧ s.length % 2 = 0 ∧ ∀ c ∈ s, isUpperHexDigit c = true := by
  rw [processAll] at h
  split at h
  · exact absurd h (by simp)
  · rename_i st hpa
    split at h
    · exact absurd h (by simp)
    · rename_i simResult hps
      simp only [processorToHex] at h
      split at h
      · exact absurd h (by simp)
      case isFalse hpar =>
        injection h with hout
        subst hout
        refine ⟨_, rfl, by rw [List.length_map]; omega, ?_⟩
        intro c hc
        obtain ⟨c', hc', rfl⟩ := List.mem_map.mp hc
        obtain ⟨l, hl, hcl⟩ := List.mem_flatten.mp hc'
        obtain ⟨t, ht, rfl⟩ := List.mem_map.mp hl
        rcases mem_ensureFullByte hcl with h0 | hmem
        · rw [h0]
          decide
        · obtain ⟨t', ht', rfl⟩ := List.mem_map.mp (List.mem_filter.mp ht).1
          obtain ⟨d, hd, rfl⟩ := mem_translateToBytecode hmem
          exact upperHexDigit_of_digit d hd

/-- Counterexample for C9 as stated: the empty program does not yield "0x";
the processor raises the no-first-action sanity error instead. -/
theorem C9_output_format_counterexample :
    processAll [] =
      .error "FATAL ERROR: No first action; processActions() created unexpected output."
    ∧ processAll [] ≠ .ok ['0', 'x'] := by
  refine ⟨rfl, fun hcontra => ?_⟩
  have h2 : (Except.error
      "FATAL ERROR: No first action; processActions() created unexpected output."
        : Except String (List Char)) =
      Except.ok ['0', 'x'] := hcontra
  exact Except.noConfusion h2

/-- Witness for C9: the one-action program `stop()` compiles to "0x00",
which is "0x" followed by an even number of uppercase hex digits. -/
theorem C9_output_format_witness :
    ∃ s, ['0', 'x', '0', '0'] = '0' :: 'x' :: s
      ∧ s.length % 2 = 0 ∧ ∀ c ∈ s, isUpperHexDigit c = true :=
  C9_output_format [ActionTree.mk 0 false (.consItem (.instr Instruction.STOP) .nil)]
    ['0', 'x', '0', '0'] (by rfl)

/-! ## Flatten invariant: marked start entries point at JUMPDEST items -/

/-- Every recorded start entry of an action marked as a jump destination
points at a JUMPDEST item in the flattened stream. -/
def StartsOK (st : FlatState) : Prop :=
  ∀ s ∈ st.starts, s.isJD = true →
    st.intermediate[s.index]? = some (Item.instr Instruction.JUMPDEST)

theorem startsOK_extend {st : FlatState} (t : List Item) (h : StartsOK st) :
    StartsOK ⟨st.intermediate ++ t, st.starts, st.ends⟩ := by
  intro s hs hsJD
  have h1 := h s hs hsJD
  obtain ⟨hlt, _⟩ := List.getElem?_eq_some_iff.mp h1
  show (st.intermediate ++ t)[s.index]? = _
  rw [List.getElem?_append_left hlt]
  exact h1

theorem startsOK_ends {st : FlatState} (e : List (Nat × Nat)) (h : StartsOK st) :
    StartsOK ⟨st.intermediate, st.starts, e⟩ :=
  h

theorem startsOK_push_marked (st : FlatState) (actionId : Nat) (hOK : StartsOK st) :
    StartsOK ⟨st.intermediate ++ [Item.instr Instruction.JUMPDEST],
      st.starts ++ [⟨st.intermediate.length, actionId, true⟩], st.ends⟩ := by
  intro s hs hsJD
  rcases List.mem_append.mp hs with hold | hnew
  · exact startsOK_extend [Item.instr Instruction.JUMPDEST] hOK s hold hsJD
  · have hse : s = ⟨st.intermediate.length, actionId, true⟩ := by simpa using hnew
    subst hse
    show (st.intermediate ++ [Item.instr Instruction.JUMPDEST])[st.intermediate.length]? = _
    exact List.getElem?_concat_length _ _

theorem startsOK_push_unmarked (st : FlatState) (actionId : Nat) (hOK : StartsOK st) :
    StartsOK ⟨st.intermediate,
      st.starts ++ [⟨st.intermediate.length, actionId, false⟩], st.ends⟩ := by
  intro s hs hsJD
  rcases List.mem_append.mp hs with hold | hnew
  · exact hOK s hold hsJD
  · have hse : s = ⟨st.intermediate.length, actionId, false⟩ := by simpa using hnew
    subst hse
    exact absurd hsJD (by simp)

mutual
theorem processOneAction_invariant : ∀ (a : ActionTree) (st st' : FlatState),
    processOneAction a st = .ok st' →
    (∃ t, st'.intermediate = st.intermediate ++ t) ∧ (StartsOK st → StartsOK st')
  | .mk actionId isJD inter, st, st', h => by
    simp only [processOneAction] at h
    split at h
    · exact absurd h (by simp)
    · split at h
      · exact absurd h (by simp)
      · rename_i st3 hpe
        injection h with hst'
        subst hst'
        split at hpe
        · rename_i hjd
          subst hjd
          obtain ⟨⟨t, ht⟩, himp⟩ := processEntries_invariant inter _ _ hpe
          constructor
          · refine ⟨Item.instr Instruction.JUMPDEST :: t, ?_⟩
            show st3.intermediate = _
            rw [ht]
            show (st.intermediate ++ [Item.instr Instruction.JUMPDEST]) ++ t = _
            rw [List.append_assoc]
            rfl
          · intro hOK
            exact startsOK_ends _ (himp (startsOK_push_marked st actionId hOK))
        · rename_i hjd
          have hjd' : isJD = false := by
            revert hjd
            cases isJD <;> simp
          subst hjd'
          obtain ⟨⟨t, ht⟩, himp⟩ := processEntries_invariant inter _ _ hpe
          constructor
          · exact ⟨t, ht⟩
          · intro hOK
            exact startsOK_ends _ (himp (startsOK_push_unmarked st actionId hOK))

theorem processEntries_invariant : ∀ (l : EntryList) (st st' : FlatState),
    processEntries l st = .ok st' →
    (∃ t, st'.intermediate = st.intermediate ++ t) ∧ (StartsOK st → StartsOK st')
  | .nil, st, st', h => by
    injection h with h1
    subst h1
    exact ⟨⟨[], (List.append_nil _).symm⟩, fun x => x⟩
  | .consItem item rest, st, st', h => by
    simp only [processEntries] at h
    obtain ⟨⟨t, ht⟩, himp⟩ := processEntries_invariant rest _ _ h
    constructor
    · refine ⟨item :: t, ?_⟩
      rw [ht]
      show (st.intermediate ++ [item]) ++ t = _
      rw [List.append_assoc]
      rfl
    · intro hOK
      exact himp (startsOK_extend [item] hOK)
  | .consAction child rest, st, st', h => by
    simp only [processEntries] at h
    split at h
    · exact absurd h (by simp)
    · rename_i st1 hchild
      obtain ⟨⟨t1, ht1⟩, himp1⟩ := processOneAction_invariant child _ _ hchild
      obtain ⟨⟨t2, ht2⟩, himp2⟩ := processEntries_invariant rest _ _ h
      exact ⟨⟨t1 ++ t2, by rw [ht2, ht1, List.append_assoc]⟩,
        fun hOK => himp2 (himp1 hOK)⟩
end

theorem processActionList_invariant : ∀ (actions : List ActionTree) (st st' : FlatState),
    processActionList actions st = .ok st' →
    (∃ t, st'.intermediate = st.intermediate ++ t) ∧ (StartsOK st → StartsOK st') := by
  intro actions
  induction actions with
  | nil =>
    intro st st' h
    injection h with h1
    subst h1
    exact ⟨⟨[], (List.append_nil _).symm⟩, fun x => x⟩
  | cons a rest ih =>
    intro st st' h
    simp only [processActionList] at h
    split at h
    · exact absurd h (by simp)
    · rename_i st1 ha
      obtain ⟨⟨t1, ht1⟩, himp1⟩ := processOneAction_invariant a _ _ ha
      obtain ⟨⟨t2, ht2⟩, himp2⟩ := ih _ _ h
      exact ⟨⟨t1 ++ t2, by rw [ht2, ht1, List.append_assoc]⟩,
        fun hOK => himp2 (himp1 hOK)⟩

theorem processActions_startsOK {actions : List ActionTree} {st : FlatState}
    (h : processActions actions = .ok st) : StartsOK st := by
  rw [processActions] at h
  split at h
  · exact absurd h (by simp)
  · rename_i st0 hpal
    split at h
    · injection h with h1
      subst h1
      refine (processActionList_invariant actions _ _ hpal).2 ?_
      intro s hs
      simp at hs
    · exact absurd h (by simp)

/-! ## Emission lemmas: translation widths and payload layout -/

/-- Opcode bytes of the static instruction table are single bytes. -/
def itemInstrOK : Item → Bool
  | .instr i => decide (i.code ≤ 255)
  | .lit _ => true
  | .actionPtr _ => true

theorem actionPointerToHex_length_of_lt {k : Nat} (hk : k < 2 ^ 16) :
    (actionPointerToHex k).length = 4 := by
  have hpos := natToHexChars_length_pos k
  have hup : (natToHexChars k).length ≤ 4 := by
    rw [natToHexChars_length]
    by_cases h0 : k = 0
    · rw [if_pos h0]
      omega
    · rw [if_neg h0]
      have : Nat.log 16 k < 4 :=
        (Nat.lt_pow_iff_log_lt (by norm_num) h0).mp (by norm_num at hk ⊢; omega)
      omega
  rw [actionPointerToHex, leftPad, List.length_append, List.length_replicate,
    padCount, POINTER_BYTE_LENGTH]
  omega

theorem itemByteLength_pos (it : Item) : 1 ≤ itemByteLength it := by
  cases it with
  | instr i => exact le_refl 1
  | lit n => exact byteLengthNat_pos n
  | actionPtr a => rw [itemByteLength, POINTER_BYTE_LENGTH]; omega

theorem translateToBytecode_length {jd : List (Nat × Nat)} {it : Item}
    (hcode : itemInstrOK it = true)
    (hjd : ∀ actionId, lookupJumpDestination jd actionId < 2 ^ 16) :
    (translateToBytecode jd it).length = 2 * itemByteLength it := by
  rw [translateToBytecode, List.length_map, ensureFullByte, leftPad,
    List.length_append, List.length_replicate]
  cases it with
  | instr i =>
    have hc : i.code ≤ 255 := by simpa [itemInstrOK] using hcode
    have hpos := natToHexChars_length_pos i.code
    have hup : (natToHexChars i.code).length ≤ 2 := by
      rw [natToHexChars_length]
      by_cases h0 : i.code = 0
      · rw [if_pos h0]
        omega
      · rw [if_neg h0]
        have : Nat.log 16 i.code < 2 :=
          (Nat.lt_pow_iff_log_lt (by norm_num) h0).mp (by omega)
        omega
    show padCount (natToHexChars i.code).length 2 + (natToHexChars i.code).length = 2 * 1
    rw [padCount]
    omega
  | lit n =>
    have hpos := natToHexChars_length_pos n
    show padCount (natToHexChars n).length 2 + (natToHexChars n).length
      = 2 * byteLengthNat n
    rw [padCount, byteLengthNat]
    omega
  | actionPtr actionId =>
    have h4 := actionPointerToHex_length_of_lt (hjd actionId)
    show padCount (actionPointerToHex (lookupJumpDestination jd actionId)).length 2
      + (actionPointerToHex (lookupJumpDestination jd actionId)).length
      = 2 * POINTER_BYTE_LENGTH
    rw [h4, padCount, POINTER_BYTE_LENGTH]

theorem ensureFullByte_of_even {s : List Char} (h : s.length % 2 = 0) :
    ensureFullByte s = s := by
  rw [ensureFullByte, leftPad]
  have : padCount s.length (1 * 2) = 0 := by
    rw [padCount]
    omega
  rw [this]
  rfl

theorem payload_eq {items : List Item} {jd : List (Nat × Nat)}
    (hlen : ∀ it ∈ items, (translateToBytecode jd it).length = 2 * itemByteLength it) :
    (((items.map (translateToBytecode jd)).filter (fun t => t ≠ [])).map
        (fun s => ensureFullByte s)).flatten
      = (items.map (translateToBytecode jd)).flatten := by
  have hkeep : (items.map (translateToBytecode jd)).filter (fun t => t ≠ [])
      = items.map (translateToBytecode jd) := by
    rw [List.filter_eq_self]
    intro t ht
    obtain ⟨it, hit, rfl⟩ := List.mem_map.mp ht
    have h1 := hlen it hit
    have h2 := itemByteLength_pos it
    simp only [ne_eq, decide_eq_true_eq]
    intro hnil
    rw [hnil] at h1
    simp at h1
    omega
  rw [hkeep]
  have hid : ∀ t ∈ items.map (translateToBytecode jd), ensureFullByte t = id t := by
    intro t ht
    obtain ⟨it, hit, rfl⟩ := List.mem_map.mp ht
    show ensureFullByte _ = _
    apply ensureFullByte_of_even
    rw [hlen it hit]
    omega
  rw [List.map_congr_left hid, List.map_id]

theorem flatten_length_even {ts : List (List Char)}
    (h : ∀ t ∈ ts, t.length % 2 = 0) : ts.flatten.length % 2 = 0 := by
  induction ts with
  | nil => rfl
  | cons t rest ih =>
    rw [List.flatten_cons, List.length_append]
    have h1 := h t (by simp)
    have h2 := ih (fun t' ht' => h t' (by simp [ht']))
    omega

theorem offsetAt_le_total (items : List Item) (i : Nat) :
    offsetAt items i ≤ offsetAt items items.length := by
  rw [offsetAt, offsetAt, List.take_length]
  exact ((List.take_sublist i items).map itemByteLength).sum_le_sum
    (fun a _ => Nat.zero_le a)

theorem lookupJumpDestination_lt {items : List Item} {starts : List StartEntry}
    (hsize : offsetAt items items.length < 2 ^ 16) (actionId : Nat) :
    lookupJumpDestination (processJumpDestinations items starts) actionId < 2 ^ 16 := by
  rw [lookupJumpDestination]
  cases hfind : (processJumpDestinations items starts).find? (fun p => p.1 = actionId) with
  | none =>
    show (0 : Nat) < 2 ^ 16
    positivity
  | some p =>
    have hmem := List.mem_of_find?_eq_some hfind
    obtain ⟨s, _, rfl⟩ := List.mem_map.mp hmem
    show offsetAt items s.index < 2 ^ 16
    exact lt_of_le_of_lt (offsetAt_le_total items s.index) hsize

theorem translateToBytecode_JUMPDEST (jd : List (Nat × Nat)) :
    translateToBytecode jd (Item.instr Instruction.JUMPDEST) = ['5', 'B'] := by
  rw [translateToBytecode]
  show (ensureFullByte (natToHexChars Instruction.JUMPDEST.code)).map toUpperChar = _
  decide

theorem flatten_drop_offset {jd : List (Nat × Nat)} :
    ∀ (items : List Item),
    (∀ it ∈ items, (translateToBytecode jd it).length = 2 * itemByteLength it) →
    ∀ idx, idx ≤ items.length →
    ((items.map (translateToBytecode jd)).flatten).drop (2 * offsetAt items idx)
      = ((items.drop idx).map (translateToBytecode jd)).flatten := by
  intro items
  induction items with
  | nil =>
    intro _ idx hidx
    have h0 : idx = 0 := by simpa using hidx
    subst h0
    rfl
  | cons it rest ih =>
    intro hlen idx hidx
    cases idx with
    | zero => rfl
    | succ idx' =>
      have hoff : offsetAt (it :: rest) (idx' + 1) = itemByteLength it + offsetAt rest idx' := by
        rw [offsetAt, offsetAt, List.take_succ_cons, List.map_cons, List.sum_cons]
      have h2 : 2 * (itemByteLength it + offsetAt rest idx') =
          (translateToBytecode jd it).length + 2 * offsetAt rest idx' := by
        rw [hlen it (by simp)]
        ring
      rw [hoff, List.map_cons, List.flatten_cons, h2, ← List.drop_drop, List.drop_left,
        List.drop_succ_cons]
      exact ih (fun x hx => hlen x (by simp [hx])) idx' (by simpa using hidx)

/-! ## Claim C8 -/

/-- Claim C8 (amended): (a) the post-evaluation namespace walk marks as a
jump destination exactly the Actions that were already marked during
evaluation or are the value of an `ActionPointer` binding whose name does
not begin with "_"; (b) in the emitted bytecode (when every opcode byte
fits in one byte and the program is under 2^16 bytes, so pointers emit at
their declared width), every Action recorded at jump offset k with
`is_jump_destination` has the byte 0x5B (hex digits "5B") at offset k.
The converse of (b) is false: an unmarked action whose first instruction
is a literal JUMPDEST also places 0x5B at its jump offset (see the
counterexample). -/
theorem C8_jump_destinations :
    (∀ (bindings : List (String × BindingValue)) (isMarked : Nat → Bool) (actionId : Nat),
      applyJumpDestinationWalk bindings isMarked actionId = true ↔
        (isMarked actionId = true ∨ ∃ b ∈ bindings, bindingPromotes b actionId = true))
    ∧ (∀ (actions : List ActionTree) (st : FlatState) (simResult : SimState) (s : StartEntry),
      processActions actions = .ok st →
      processStackItems st.intermediate ⟨0, []⟩ = .ok simResult →
      (∀ it ∈ st.intermediate, itemInstrOK it = true) →
      offsetAt st.intermediate st.intermediate.length < 2 ^ 16 →
      s ∈ st.starts → s.isJD = true →
      ∃ payload, processAll actions = .ok ('0' :: 'x' :: payload)
        ∧ (payload.drop (2 * offsetAt st.intermediate s.index)).take 2 = ['5', 'B']) := by
  constructor
  · intro bindings isMarked actionId
    rw [applyJumpDestinationWalk]
    rw [Bool.or_eq_true, List.any_eq_true]
  · intro actions st simResult s hflat hstack hcodes hsize hmem hjdflag
    have hjdlt : ∀ actionId,
        lookupJumpDestination (processJumpDestinations st.intermediate st.starts) actionId
          < 2 ^ 16 :=
      lookupJumpDestination_lt hsize
    have hlen : ∀ it ∈ st.intermediate,
        (translateToBytecode (processJumpDestinations st.intermediate st.starts) it).length
          = 2 * itemByteLength it :=
      fun it hit => translateToBytecode_length (hcodes it hit) hjdlt
    have hOK := processActions_startsOK hflat
    have hJD := hOK s hmem hjdflag
    obtain ⟨hslt, hsval⟩ := List.getElem?_eq_some_iff.mp hJD
    have hpay := @payload_eq st.intermediate
      (processJumpDestinations st.intermediate st.starts) hlen
    have heven : ((st.intermediate.map
        (translateToBytecode (processJumpDestinations st.intermediate st.starts))).flatten).length
          % 2 = 0 := by
      apply flatten_length_even
      intro t ht
      obtain ⟨it, hit, rfl⟩ := List.mem_map.mp ht
      rw [hlen it hit]
      omega
    have hemit : processorToHex st.intermediate
        (processJumpDestinations st.intermediate st.starts) =
        .ok ('0' :: 'x' :: ((st.intermediate.map
          (translateToBytecode (processJumpDestinations st.intermediate st.starts))).flatten).map
            toUpperChar) := by
      simp only [processorToHex]
      rw [hpay, if_neg (by omega)]
    have hall : processAll actions =
        .ok ('0' :: 'x' :: ((st.intermediate.map
          (translateToBytecode (processJumpDestinations st.intermediate st.starts))).flatten).map
            toUpperChar) := by
      rw [processAll, hflat]
      show (match processStackItems st.intermediate ⟨0, []⟩ with
        | Except.error e => Except.error e
        | Except.ok _ => processorToHex st.intermediate
            (processJumpDestinations st.intermediate st.starts)) = _
      rw [hstack]
      exact hemit
    refine ⟨_, hall, ?_⟩
    rw [← List.map_drop, ← List.map_take,
      flatten_drop_offset st.intermediate hlen s.index (le_of_lt hslt),
      List.drop_eq_getElem_cons hslt, hsval, List.map_cons, List.flatten_cons]
    rw [translateToBytecode_JUMPDEST]
    rw [List.cons_append, List.cons_append, List.take_succ_cons, List.take_succ_cons,
      List.take_zero]
    decide

/-- Counterexample for C8 as stated: a single unmarked action whose only
instruction is a literal JUMPDEST opcode sits at jump offset 0 with
`is_jump_destination = false`, yet the emitted byte at offset 0 is 0x5B
("5B" in the output "0x5B") — refuting the claimed "if and only if". -/
theorem C8_jump_destinations_counterexample :
    processAll [ActionTree.mk 0 false (.consItem (.instr Instruction.JUMPDEST) .nil)]
      = .ok ['0', 'x', '5', 'B']
    ∧ processActions [ActionTree.mk 0 false (.consItem (.instr Instruction.JUMPDEST) .nil)]
      = .ok ⟨[Item.instr Instruction.JUMPDEST], [⟨0, 0, false⟩], [(0, 0)]⟩ :=
  ⟨rfl, rfl⟩

/-- Witness for C8: a binding "main" promotes its action; the one-action
marked program emits "0x5B00" with "5B" at jump offset 0. -/
theorem C8_jump_destinations_witness :
    applyJumpDestinationWalk [("main", BindingValue.actionPointer 7)] (fun _ => false) 7 = true
    ∧ ∃ payload,
        processAll [ActionTree.mk 0 true (.consItem (.instr Instruction.STOP) .nil)]
          = .ok ('0' :: 'x' :: payload)
        ∧ (payload.drop (2 * offsetAt [Item.instr Instruction.JUMPDEST,
            Item.instr Instruction.STOP] 0)).take 2 = ['5', 'B'] := by
  obtain ⟨hA, hB⟩ := C8_jump_destinations
  constructor
  · exact (hA [("main", BindingValue.actionPointer 7)] (fun _ => false) 7).mpr
      (Or.inr ⟨("main", BindingValue.actionPointer 7), by simp, by decide⟩)
  · exact hB [ActionTree.mk 0 true (.consItem (.instr Instruction.STOP) .nil)]
      ⟨[Item.instr Instruction.JUMPDEST, Item.instr Instruction.STOP], [⟨0, 0, true⟩], [(1, 0)]⟩
      ⟨0, []⟩ ⟨0, 0, true⟩ (by rfl) (by rfl) (by decide) (by decide) (by simp) (by rfl)
